import Mathlib

/-!
Verification of the EmployeePolicy Q&A retrieval pipeline.

This file gives a shallow embedding, in Lean 4, of the core retrieval code of
the repository:

* `src/text_chunker.py`  — `TextChunker._split_text`, `TextChunker.chunk_document`
* `src/vector_store.py`  — `VectorStore._init_chroma`, `_init_faiss`,
  `_add_to_faiss`, `add_documents`, `_search_chroma`, `_search_faiss`,
  `get_collection_info`, `delete_collection`
* `src/rag_pipeline.py`  — `RAGPipeline.search`
* `src/qa_system.py`     — `QASystem.answer` and its helpers

Modelling conventions:

* Python strings are modelled as `List Char` where character-level slicing
  matters (the chunker) and as `String` elsewhere.
* Python `int` is `Int`; Python truthiness of an optional int
  (`if self.user_id:`) is `pyTruthyInt`.
* Metadata dictionaries are association lists `List (String × PyVal)`;
  `dict.get(k)` is `mget`.
* Raw `float` distances are modelled as `Rat`: no claim in scope depends on
  floating-point rounding — the code only copies distances around and, in the
  answer assembler, computes `1 - d/10`.
* Exceptions (`raise ValueError`) are modelled with `Except String`.
* The external ChromaDB client is modelled as a finite map from collection
  names to element counts; the external FAISS index as the list of its
  vectors; the two persisted FAISS files as an optional snapshot.
* Loops are modelled by structural recursion; the chunker's `while` loop
  carries explicit fuel (`text.length` suffices because the cursor strictly
  increases on every iteration — `splitLoop_fuel_irrelevant` below shows the
  result does not depend on the fuel once it is at least the remaining text
  length).
-/

/-- Python values that occur in chunk metadata in this codebase
(ints such as `user_id`, and strings such as `source`). -/
inductive PyVal where
  | vint (n : Int)
  | vstr (s : String)
deriving DecidableEq

/-- Python `str(v)` for a metadata value. -/
def pyValStr : PyVal → String
  | .vint n => toString n
  | .vstr s => s

/-- Python `str(x)` where `x` may be `None` (as in `str(metadata.get('user_id'))`). -/
def pyStr : Option PyVal → String
  | none => "None"
  | some v => pyValStr v

/-- Python truthiness of an `int`-or-`None` field (`if self.user_id:`). -/
def pyTruthyInt : Option Int → Bool
  | none => false
  | some n => n != 0

/-- Python `str(self.user_id)` where `self.user_id : int = None`. -/
def pyStrOfUserId : Option Int → String
  | none => "None"
  | some n => toString n

/-- `dict.get(k)` on a metadata dictionary modelled as an association list. -/
def mget (m : List (String × PyVal)) (k : String) : Option PyVal :=
  (m.find? (fun p => p.1 == k)).map (fun p => p.2)

/-- `d[k] = v` on a metadata dictionary: replaces any existing binding of `k`. -/
def mput (m : List (String × PyVal)) (k : String) (v : PyVal) : List (String × PyVal) :=
  (m.filter (fun p => p.1 != k)) ++ [(k, v)]

/-! ## Text chunker (`src/text_chunker.py`) -/

/-- Python's whitespace characters for `str.strip()` (ASCII subset, which is
all that occurs in this pipeline's cleaned text). -/
def pyIsSpace (c : Char) : Bool :=
  c == ' ' || c == '\t' || c == '\n' || c == '\r' || c == '\x0b' || c == '\x0c'

/-- Python `s.strip()`. -/
def pyStrip (s : List Char) : List Char :=
  ((s.dropWhile pyIsSpace).reverse.dropWhile pyIsSpace).reverse

/-- Python `text[i:i+len(sep)] == sep` (slices clamp at the end of the string). -/
def sliceEq (text : List Char) (i : Nat) (sep : List Char) : Bool :=
  ((text.drop i).take sep.length) == sep

/-- The inner backward scan
`for i in range(end, max(start, end - 200), -1): if text[i:i+len(sep)] == sep: ...`
of `TextChunker._split_text`: returns `some (i + len sep)` for the largest
`i > lo` at which `sep` occurs, `none` if there is none.  `lo` is the
(excluded) lower bound `max(start, end - 200)`; the scan starts at `i = endp`. -/
def scanBack (text sep : List Char) (lo : Nat) : Nat → Option Nat
  | 0 => none
  | i + 1 =>
    if i + 1 ≤ lo then none
    else if sliceEq text (i + 1) sep then some (i + 1 + sep.length)
    else scanBack text sep lo i

/-- The separator list of `TextChunker._split_text`:
`["\n\n", "\n", ". ", "! ", "? ", " ", ""]`. -/
def separators : List (List Char) :=
  [['\n', '\n'], ['\n'], ['.', ' '], ['!', ' '], ['?', ' '], [' '], []]

/-- The `for sep in separators` loop of `TextChunker._split_text`: starting
from `best_break = bb`, update `best_break` whenever a separator occurrence is
found, and break out as soon as `best_break < end`. -/
def sepLoop (text : List Char) (start endp : Nat) : List (List Char) → Nat → Nat
  | [], bb => bb
  | sep :: rest, bb =>
    let bb' := match scanBack text sep (max start (endp - 200)) endp with
               | some j => j
               | none => bb
    if bb' < endp then bb' else sepLoop text start endp rest bb'

/-- `best_break` computed for cursor `start` and naive cut `endp = start + chunk_size`. -/
def findBreak (text : List Char) (start endp : Nat) : Nat :=
  sepLoop text start endp separators endp

/-- The cursor update `start = max(start + 1, best_break - self.chunk_overlap)`. -/
def nextStart (bb ov start : Nat) : Nat :=
  max (start + 1) (bb - ov)

/-- The `while start < len(text)` loop of `TextChunker._split_text`,
with explicit fuel (see the header comment; `text.length` is enough). -/
def splitLoop (cs ov : Nat) (text : List Char) :
    Nat → Nat → List (List Char) → List (List Char)
  | 0, _, acc => acc
  | fuel + 1, start, acc =>
    if start < text.length then
      let endp := start + cs
      if text.length ≤ endp then
        acc ++ [text.drop start]
      else
        let bb := findBreak text start endp
        let chunk := pyStrip ((text.drop start).take (bb - start))
        let acc' := if chunk.isEmpty then acc else acc ++ [chunk]
        splitLoop cs ov text fuel (nextStart bb ov start) acc'
    else acc

/-- `TextChunker._split_text(text)` with `chunk_size = cs`, `chunk_overlap = ov`. -/
def splitText (cs ov : Nat) (text : List Char) : List (List Char) :=
  if text.length ≤ cs then [text]
  else splitLoop cs ov text text.length 0 []

/-- A document as fed to `TextChunker.chunk_document`. -/
structure PyDocument where
  filename : String
  content : List Char
  metadata : List (String × PyVal)

/-- One chunk record produced by `TextChunker.chunk_document`. -/
structure ChunkRecord where
  chunk_id : String
  content : List Char
  metadata : List (String × PyVal)

/-- `TextChunker.chunk_document(document)`: split the content and attach
per-chunk metadata (`source`, `chunk_index`, `total_chunks`, `chunk_size`). -/
def chunkDocument (cs ov : Nat) (doc : PyDocument) : List ChunkRecord :=
  let chunks := splitText cs ov doc.content
  (chunks.enum).map (fun p =>
    { chunk_id := doc.filename ++ "_chunk_" ++ toString p.1
      content := p.2
      metadata :=
        mput (mput (mput (mput doc.metadata
          "source" (.vstr doc.filename))
          "chunk_index" (.vint p.1))
          "total_chunks" (.vint chunks.length))
          "chunk_size" (.vint p.2.length) })

/-! ## Vector store (`src/vector_store.py`) -/

/-- One raw candidate coming back from `self.collection.query(...)` in
`VectorStore._search_chroma`: the `i`-th entries of `results['ids'][0]`,
`results['documents'][0]`, `results['metadatas'][0]` and (when present)
`results['distances'][0]`. -/
structure RawHit where
  id : String
  document : String
  metadata : List (String × PyVal)
  distance : Option Rat
deriving DecidableEq

/-- One formatted search result (the dicts appended to `formatted_results` /
`results` in `_search_chroma` / `_search_faiss`). -/
structure FmtResult where
  chunk_id : String
  content : String
  metadata : List (String × PyVal)
  distance : Option Rat
deriving DecidableEq

/-- The result-formatting loop of `VectorStore._search_chroma`: skip
candidates without a `user_id`, skip candidates of another user when
`self.user_id` is truthy, and break once `top_k` results are collected. -/
def searchChromaLoop (uid : Option Int) (topK : Nat) (acc : List FmtResult) :
    List RawHit → List FmtResult
  | [] => acc
  | h :: rest =>
    match mget h.metadata "user_id" with
    | none => searchChromaLoop uid topK acc rest
    | some v =>
      if pyTruthyInt uid ∧ pyValStr v ≠ pyStrOfUserId uid then
        searchChromaLoop uid topK acc rest
      else
        let acc' := acc ++ [⟨h.id, h.document, h.metadata, h.distance⟩]
        if topK ≤ acc'.length then acc' else searchChromaLoop uid topK acc' rest

/-- `VectorStore._search_chroma(query_embedding, top_k)`, as a function of the
raw candidate list the ChromaDB query returns (the query itself — embedding
distance computation over `n_results = top_k * 2` — happens inside the
external library). -/
def searchChroma (uid : Option Int) (topK : Nat) (raw : List RawHit) : List FmtResult :=
  searchChromaLoop uid topK [] raw

/-- One entry of `self.metadata_store` in the FAISS backend (the dict has
dense integer keys `0 .. n-1`, so it is modelled as a list). -/
structure FaissEntry where
  chunk_id : String
  content : String
  metadata : List (String × PyVal)
deriving DecidableEq

/-- The result-formatting loop of `VectorStore._search_faiss`, over the
`(idx, distance)` pairs returned by `faiss_index.search`.  The Python guard
`if idx < len(self.metadata_store)` is the `store.get? idx = some _` case. -/
def searchFaissLoop (uid : Option Int) (store : List FaissEntry) (topK : Nat)
    (acc : List FmtResult) : List (Nat × Rat) → List FmtResult
  | [] => acc
  | (idx, d) :: rest =>
    match store.get? idx with
    | none => searchFaissLoop uid store topK acc rest
    | some e =>
      match mget e.metadata "user_id" with
      | none => searchFaissLoop uid store topK acc rest
      | some v =>
        if pyTruthyInt uid ∧ pyValStr v ≠ pyStrOfUserId uid then
          searchFaissLoop uid store topK acc rest
        else
          let acc' := acc ++ [⟨e.chunk_id, e.content, e.metadata, some d⟩]
          if topK ≤ acc'.length then acc'
          else searchFaissLoop uid store topK acc' rest

/-- `VectorStore._search_faiss(query_embedding, top_k)`, as a function of the
metadata store and of the `(index, distance)` pairs the FAISS index returns
for `search_k = min(top_k * 3, ntotal)` (so no `-1` placeholder indices
occur).  `indexExists = false` models `self.faiss_index is None`. -/
def searchFaiss (uid : Option Int) (indexExists : Bool) (store : List FaissEntry)
    (topK : Nat) (hits : List (Nat × Rat)) : List FmtResult :=
  if indexExists then searchFaissLoop uid store topK [] hits else []

/-- An embedded chunk as passed to `VectorStore.add_documents`. -/
structure EmbChunk where
  chunk_id : String
  content : String
  embedding : List Rat
  metadata : List (String × PyVal)
deriving DecidableEq

/-- In-memory state of the FAISS backend: `faiss_index` (`none` before the
first add), `metadata_store`, and the persisted snapshot on disk
(`faiss_index.bin` + `metadata.pkl`, `none` when the files do not exist). -/
structure FaissState where
  index : Option (List (List Rat))
  store : List FaissEntry
  disk : Option (List (List Rat) × List FaissEntry)
deriving DecidableEq

/-- `VectorStore._init_faiss`: load the persisted index if the files exist,
otherwise start with no index and an empty metadata store.  It never writes. -/
def initFaiss (disk : Option (List (List Rat) × List FaissEntry)) : FaissState :=
  match disk with
  | some (v, s) => ⟨some v, s, disk⟩
  | none => ⟨none, [], none⟩

/-- `self.faiss_index.ntotal if self.faiss_index else 0`
(the `document_count` of `get_collection_info` in the FAISS backend). -/
def faissCount (st : FaissState) : Nat :=
  match st.index with
  | some v => v.length
  | none => 0

/-- `VectorStore._add_to_faiss(chunks)`: create the index on first use, append
the embeddings, store metadata under the next free integer keys
(`start_id = len(self.metadata_store)`), and persist everything. -/
def addToFaiss (st : FaissState) (chunks : List EmbChunk) : FaissState :=
  let vecs := (match st.index with | some v => v | none => []) ++
              chunks.map (fun c => c.embedding)
  let store' := st.store ++ chunks.map (fun c => ⟨c.chunk_id, c.content, c.metadata⟩)
  ⟨some vecs, store', some (vecs, store')⟩

/-- `VectorStore.add_documents(chunks)` in the FAISS backend
(`if not chunks: return`). -/
def addDocumentsFaiss (st : FaissState) (chunks : List EmbChunk) : FaissState :=
  if chunks.isEmpty then st else addToFaiss st chunks

/-- `VectorStore.delete_collection` in the FAISS backend: remove the two
persisted files if they exist and report success.  (OS-level I/O failures,
the only way into the `except` branch, are outside the model.) -/
def deleteFaiss (st : FaissState) : FaissState × Bool :=
  (⟨st.index, st.store, none⟩, true)

/-- The external ChromaDB client, modelled as a finite map from collection
names to element counts (all the operations this repository performs —
get, create, count, delete — see only that much structure). -/
abbrev ChromaClient := List (String × Nat)

/-- `client.get_collection(name)` succeeds exactly when the collection exists. -/
def hasCollection (client : ChromaClient) (name : String) : Bool :=
  client.any (fun p => p.1 == name)

/-- The collection name chosen in `VectorStore.__init__`:
`f"user_{user_id}_documents"` for a truthy `user_id`, else `COLLECTION_NAME`. -/
def collectionName (uid : Option Int) : String :=
  if pyTruthyInt uid then "user_" ++ pyStrOfUserId uid ++ "_documents"
  else "employee_policies"

/-- `VectorStore._init_chroma`: `get_collection`, and on failure
`create_collection` — note that *both* branches of the `except` handler
create the collection, so construction always gets-or-creates. -/
def initChroma (client : ChromaClient) (name : String) : ChromaClient :=
  if hasCollection client name then client else client ++ [(name, 0)]

/-- `self.collection.count()` (the `document_count` of `get_collection_info`
in the Chroma backend); a pure read of the client state. -/
def chromaCount (client : ChromaClient) (name : String) : Nat :=
  match client.find? (fun p => p.1 == name) with
  | some p => p.2
  | none => 0

/-- `VectorStore.delete_collection` in the Chroma backend:
`client.delete_collection(name)` raises when the collection does not exist,
and the `except` handler then returns `False`. -/
def deleteChroma (client : ChromaClient) (name : String) : ChromaClient × Bool :=
  if hasCollection client name then
    (client.filter (fun p => p.1 != name), true)
  else (client, false)

/-! ## RAG pipeline (`src/rag_pipeline.py`) -/

/-- `True` on `Except.error`, mirroring "the call raised". -/
def isError {ε α : Type} : Except ε α → Bool
  | .error _ => true
  | .ok _ => false

/-- The validation loop of `RAGPipeline.search`: raise `ValueError` on the
first result whose `str(user_id)` differs from `str(self.user_id)`, else
return all results unchanged. -/
def validateResults (uidStr : String) (all : List FmtResult) :
    List FmtResult → Except String (List FmtResult)
  | [] => .ok all
  | r :: rest =>
    if pyStr (mget r.metadata "user_id") ≠ uidStr then
      .error ("SECURITY ERROR: Search result contains document from user " ++
        pyStr (mget r.metadata "user_id") ++ " but query is for user " ++
        uidStr ++ ". This should never happen!")
    else validateResults uidStr all rest

/-- `RAGPipeline.search(query, top_k)`, as a function of the pipeline's
`user_id`, of the store's reported `document_count`, and of the result list
`self.vector_store.search` returns (embedding generation is external). -/
def pipelineSearch (uid : Option Int) (docCount : Nat)
    (storeResults : List FmtResult) : Except String (List FmtResult) :=
  if pyTruthyInt uid = false then
    .error "Cannot search without user_id - user isolation is required"
  else if docCount = 0 then
    .ok []
  else
    validateResults (pyStrOfUserId uid) storeResults storeResults

/-! ## Q&A system (`src/qa_system.py`) -/

/-- One element of the `sources` list built in `QASystem.answer`. -/
structure SourceRec where
  source : String
  chunk_id : String
  relevance_score : Rat
deriving DecidableEq

/-- The answer record returned by `QASystem.answer`. -/
structure AnswerRecord where
  question : String
  answer : String
  sources : List SourceRec
  confidence : Rat
deriving DecidableEq

/-- `QASystem._format_context(search_results)`. -/
def formatContext (searchResults : List FmtResult) : String :=
  String.intercalate "\n"
    (searchResults.enum.map (fun p =>
      let source := match mget p.2.metadata "source" with
                    | some v => pyValStr v
                    | none => "Unknown"
      "[Document " ++ toString (p.1 + 1) ++ " - Source: " ++ source ++ "]\n" ++
        p.2.content ++ "\n"))

/-- `QASystem._create_prompt(question, context)`. -/
def createPrompt (question context : String) : String :=
  "You are a helpful assistant that answers questions about employee policies and HR procedures for XCorp Technologies Private Limited.\n\n" ++
  "Use the following context from company documents to answer the question. If the answer is not in the context, say so.\n\n" ++
  "Context:\n" ++ context ++ "\n\nQuestion: " ++ question ++ "\n\nAnswer:"

/-- Python `question.lower().split()`: split on whitespace runs, dropping
empty pieces. -/
def pySplitWs (s : String) : List String :=
  (s.split (fun c => c.isWhitespace)).filter (fun w => w ≠ "")

/-- Python `word in line` (substring containment). -/
def pyContains (line word : String) : Bool :=
  decide (word.toList <:+: line.toList)

/-- `QASystem._extract_answer_from_context(question, context)`: keep context
lines sharing at least one (deduplicated) question word, return the first 5
joined, else the first 500 characters of the context. -/
def extractAnswerFromContext (question context : String) : String :=
  let lines := context.splitOn "\n"
  let questionWords := (pySplitWs (question.map Char.toLower)).dedup
  let relevantLines := lines.filter (fun line =>
    0 < questionWords.countP (fun w => pyContains (line.map Char.toLower) w))
  if relevantLines.isEmpty then (context.toList.take 500).asString
  else String.intercalate "\n" (relevantLines.take 5)

/-- `QASystem.answer(question, use_llm)`, as a function of the retrieval
results and of the completion capability: `llmClient = none` models
`self.llm_client is None`; `some complete` models a configured client whose
call either returns a completion (`some a`) or raises (`none`), in which case
the code falls back to extraction. -/
def qaAnswer (question : String) (searchResults : List FmtResult)
    (useLlm : Bool) (llmClient : Option (String → Option String)) : AnswerRecord :=
  if searchResults.isEmpty then
    { question := question
      answer := "I couldn't find relevant information in the company documents to answer this question."
      sources := []
      confidence := 0 }
  else
    let context := formatContext searchResults
    let ans :=
      match useLlm, llmClient with
      | true, some complete =>
        match complete (createPrompt question context) with
        | some a => a
        | none => extractAnswerFromContext question context
      | _, _ => extractAnswerFromContext question context
    let sources := searchResults.map (fun r =>
      ({ source := match mget r.metadata "source" with
                   | some v => pyValStr v
                   | none => "Unknown"
         chunk_id := r.chunk_id
         relevance_score :=
           match r.distance with
           | some d => if d ≠ 0 then 1 - d / 10 else 1
           | none => 1 } : SourceRec))
    { question := question
      answer := ans
      sources := sources
      confidence := match sources with
                    | s :: _ => s.relevance_score
                    | [] => 0 }

/-! ## Comparison functions for the implicit claim about falsy `user_id`

These two definitions follow the claim's words, not the source: the search
loops with the tenant-mismatch check removed, so that only candidates whose
metadata lacks a `user_id` are dropped.  They are compared with the source
embeddings `searchChroma` / `searchFaiss` for a store whose `user_id` is
falsy. -/

/-- The Chroma formatting loop without the tenant-mismatch check. -/
def searchChromaKeepAllLoop (topK : Nat) (acc : List FmtResult) :
    List RawHit → List FmtResult
  | [] => acc
  | h :: rest =>
    match mget h.metadata "user_id" with
    | none => searchChromaKeepAllLoop topK acc rest
    | some _ =>
      let acc' := acc ++ [⟨h.id, h.document, h.metadata, h.distance⟩]
      if topK ≤ acc'.length then acc' else searchChromaKeepAllLoop topK acc' rest

/-- Chroma search without tenant-mismatch filtering. -/
def searchChromaKeepAll (topK : Nat) (raw : List RawHit) : List FmtResult :=
  searchChromaKeepAllLoop topK [] raw

/-- The FAISS formatting loop without the tenant-mismatch check. -/
def searchFaissKeepAllLoop (store : List FaissEntry) (topK : Nat)
    (acc : List FmtResult) : List (Nat × Rat) → List FmtResult
  | [] => acc
  | (idx, d) :: rest =>
    match store.get? idx with
    | none => searchFaissKeepAllLoop store topK acc rest
    | some e =>
      match mget e.metadata "user_id" with
      | none => searchFaissKeepAllLoop store topK acc rest
      | some _ =>
        let acc' := acc ++ [⟨e.chunk_id, e.content, e.metadata, some d⟩]
        if topK ≤ acc'.length then acc'
        else searchFaissKeepAllLoop store topK acc' rest

/-- FAISS search without tenant-mismatch filtering. -/
def searchFaissKeepAll (indexExists : Bool) (store : List FaissEntry)
    (topK : Nat) (hits : List (Nat × Rat)) : List FmtResult :=
  if indexExists then searchFaissKeepAllLoop store topK [] hits else []

/-! ## Concrete inputs used in counterexamples and witnesses -/

/-- An embedded chunk of tenant 1, re-ingested twice in the C3 scenario. -/
def sampleChunk : EmbChunk :=
  ⟨"policy.pdf_chunk_0", "probation is 3 months", [1], [("user_id", .vint 1)]⟩

/-- A raw Chroma candidate belonging to tenant 1. -/
def rawHitUser1 : RawHit :=
  ⟨"u1_doc_chunk_0", "tenant one text", [("user_id", .vint 1)], none⟩

/-- A raw Chroma candidate belonging to a different tenant (tenant 2). -/
def rawHitUser2 : RawHit :=
  ⟨"u2_doc_chunk_0", "tenant two text", [("user_id", .vint 2)], some 1⟩

/-- The FAISS metadata store holding one entry of tenant 2. -/
def faissStoreUser2 : List FaissEntry :=
  [⟨"u2_doc_chunk_0", "tenant two text", [("user_id", .vint 2)]⟩]

/-- A search result tagged with tenant 2 (a cross-tenant leak from the
pipeline's point of view when the query is for tenant 1). -/
def leakedResult : FmtResult :=
  ⟨"u2_doc_chunk_0", "tenant two text", [("user_id", PyVal.vint 2)], none⟩

/-- A search result correctly tagged with tenant 1. -/
def ownResult : FmtResult :=
  ⟨"u1_doc_chunk_0", "tenant one text", [("user_id", PyVal.vint 1)], none⟩

/-! # Theorems

## Chunker lemmas -/

theorem scanBack_none_of_le (text sep : List Char) {lo i : Nat} (h : i ≤ lo) :
    scanBack text sep lo i = none := by
  cases i with
  | zero => rfl
  | succ i => simp [scanBack, h]

theorem scanBack_nil (text : List Char) {lo i : Nat} (h : lo < i) :
    scanBack text [] lo i = some i := by
  cases i with
  | zero => omega
  | succ i =>
    have h1 : ¬ (i + 1 ≤ lo) := by omega
    simp [scanBack, h1, sliceEq]

/-- Once the separator loop reaches the empty separator, `best_break` is at
most the naive cut position `endp`. -/
theorem sepLoop_append_nil_le (text : List Char) {start endp : Nat}
    (h : max start (endp - 200) < endp) :
    ∀ (l : List (List Char)) (bb : Nat),
      sepLoop text start endp (l ++ [[]]) bb ≤ endp := by
  intro l
  induction l with
  | nil =>
    intro bb
    simp only [List.nil_append, sepLoop, scanBack_nil text h]
    simp
  | cons sep rest ih =>
    intro bb
    simp only [List.cons_append, sepLoop]
    split
    · exact Nat.le_of_lt (by assumption)
    · exact ih _

/-- When the backward-scan window is empty (`endp ≤ max start (endp - 200)`,
i.e. `chunk_size = 0`), no separator is ever found and `best_break` stays at
its initial value. -/
theorem sepLoop_const (text : List Char) {start endp : Nat}
    (h : endp ≤ max start (endp - 200)) :
    ∀ (l : List (List Char)) (bb : Nat), sepLoop text start endp l bb = bb := by
  intro l
  induction l with
  | nil => intro bb; rfl
  | cons sep rest ih =>
    intro bb
    simp only [sepLoop, scanBack_none_of_le text sep h]
    split
    · rfl
    · exact ih bb

/-- The break point chosen for a chunk never exceeds the naive cut `endp`
(the empty separator, tried last, always matches at `endp` and resets any
overshooting `best_break`). -/
theorem findBreak_le (text : List Char) (start endp : Nat) :
    findBreak text start endp ≤ endp := by
  by_cases h : endp ≤ max start (endp - 200)
  · rw [findBreak, sepLoop_const text h]
  · have h' : max start (endp - 200) < endp := Nat.lt_of_not_le h
    have hsep : separators =
        [['\n', '\n'], ['\n'], ['.', ' '], ['!', ' '], ['?', ' '], [' ']] ++ [[]] := rfl
    rw [findBreak, hsep]
    exact sepLoop_append_nil_le text h' _ _

theorem length_dropWhile_le {α : Type} (p : α → Bool) (l : List α) :
    (l.dropWhile p).length ≤ l.length := by
  induction l with
  | nil => simp
  | cons a l ih =>
    by_cases h : p a <;> simp [List.dropWhile_cons, h]
    exact Nat.le_succ_of_le ih

theorem pyStrip_length_le (s : List Char) : (pyStrip s).length ≤ s.length :=
  calc (pyStrip s).length
      = ((s.dropWhile pyIsSpace).reverse.dropWhile pyIsSpace).length := by
        rw [pyStrip, List.length_reverse]
    _ ≤ (s.dropWhile pyIsSpace).reverse.length := length_dropWhile_le _ _
    _ = (s.dropWhile pyIsSpace).length := List.length_reverse _
    _ ≤ s.length := length_dropWhile_le _ _

/-- Every chunk the `while` loop accumulates has length at most `chunk_size`. -/
theorem splitLoop_length_le (cs ov : Nat) (text : List Char) :
    ∀ (fuel start : Nat) (acc : List (List Char)),
      (∀ c ∈ acc, c.length ≤ cs) →
      ∀ c ∈ splitLoop cs ov text fuel start acc, c.length ≤ cs := by
  intro fuel
  induction fuel with
  | zero => intro start acc hacc c hc; exact hacc c hc
  | succ fuel ih =>
    intro start acc hacc c hc
    simp only [splitLoop] at hc
    by_cases h1 : start < text.length
    · rw [if_pos h1] at hc
      by_cases h2 : text.length ≤ start + cs
      · rw [if_pos h2] at hc
        rcases List.mem_append.1 hc with h | h
        · exact hacc c h
        · rw [List.mem_singleton] at h
          subst h
          rw [List.length_drop]
          omega
      · rw [if_neg h2] at hc
        refine ih _ _ ?_ c hc
        intro c' hc'
        split at hc'
        · exact hacc c' hc'
        · rcases List.mem_append.1 hc' with h | h
          · exact hacc c' h
          · rw [List.mem_singleton] at h
            subst h
            have hbb := findBreak_le text start (start + cs)
            have h4 := pyStrip_length_le
              ((text.drop start).take (findBreak text start (start + cs) - start))
            have h5 := List.length_take
              (findBreak text start (start + cs) - start) (text.drop start)
            omega
    · rw [if_neg h1] at hc
      exact hacc c hc

/-- Every chunk of `_split_text` has length at most `chunk_size`. -/
theorem splitText_chunk_le (cs ov : Nat) (text : List Char) :
    ∀ c ∈ splitText cs ov text, c.length ≤ cs := by
  intro c hc
  unfold splitText at hc
  split at hc
  · rw [List.mem_singleton] at hc
    subst hc
    assumption
  · exact splitLoop_length_le cs ov text text.length 0 [] (by simp) c hc

/-- The loop's result does not depend on the fuel once the fuel covers the
remaining text, which justifies running it with fuel `text.length`: the
cursor advances by at least one per iteration. -/
theorem splitLoop_fuel_irrelevant (cs ov : Nat) (text : List Char) :
    ∀ (f1 f2 start : Nat) (acc : List (List Char)),
      text.length ≤ start + f1 → text.length ≤ start + f2 →
      splitLoop cs ov text f1 start acc = splitLoop cs ov text f2 start acc := by
  intro f1
  induction f1 with
  | zero =>
    intro f2 start acc h1 h2
    cases f2 with
    | zero => rfl
    | succ f2 =>
      have hs : ¬ start < text.length := by omega
      simp [splitLoop, hs]
  | succ f1 ih =>
    intro f2 start acc h1 h2
    by_cases hs : start < text.length
    · cases f2 with
      | zero => omega
      | succ f2 =>
        simp only [splitLoop]
        rw [if_pos hs, if_pos hs]
        by_cases h3 : text.length ≤ start + cs
        · rw [if_pos h3, if_pos h3]
        · rw [if_neg h3, if_neg h3]
          have hnx : start + 1 ≤ nextStart (findBreak text start (start + cs)) ov start :=
            Nat.le_max_left _ _
          exact ih f2 _ _ (by omega) (by omega)
    · cases f2 with
      | zero => simp [splitLoop, hs]
      | succ f2 => simp [splitLoop, hs]

/-! ## C4 -/

/-- C4 counterexample: on the empty input string, `_split_text` does not
produce zero chunks — `len("") <= chunk_size` returns `[text]`, a list with
one (empty) chunk. -/
theorem empty_input_zero_chunks_cex :
    splitText 1000 200 ([] : List Char) ≠ ([] : List (List Char)) := by decide

/-- C4 (amended): for the empty input string, `TextChunker._split_text`
produces exactly one chunk, the empty string itself, and `chunk_document`
on a document with empty content produces exactly one chunk record. -/
theorem empty_input_single_chunk (cs ov : Nat) (doc : PyDocument)
    (h : doc.content = []) :
    splitText cs ov doc.content = [[]] ∧ (chunkDocument cs ov doc).length = 1 := by
  constructor
  · rw [h]
    simp [splitText]
  · simp [chunkDocument, h, splitText]

/-- Witness for C4's amended theorem at a concrete document. -/
theorem empty_input_single_chunk_witness :
    splitText 7 3 (PyDocument.mk "empty.pdf" [] []).content = [[]] ∧
      (chunkDocument 7 3 (PyDocument.mk "empty.pdf" [] [])).length = 1 :=
  empty_input_single_chunk 7 3 (PyDocument.mk "empty.pdf" [] []) rfl

/-! ## C8 -/

/-- C8: the chunker's cursor update `start = max(start + 1, best_break -
overlap)` strictly increases the cursor on every loop iteration (for every
text, chunk size and overlap, including overlap larger than the advance), so
the remaining-text measure decreases and `_split_text` terminates. -/
theorem chunker_forward_progress (cs ov : Nat) (text : List Char) (start : Nat) :
    start < nextStart (findBreak text start (start + cs)) ov start ∧
    (start < text.length →
      text.length - nextStart (findBreak text start (start + cs)) ov start <
        text.length - start) := by
  simp only [nextStart]
  omega

/-- Witness for C8 at a concrete text and cursor position. -/
theorem chunker_forward_progress_witness :
    0 < nextStart (findBreak ['a', 'b'] 0 (0 + 1)) 5 0 ∧
      (['a', 'b'] : List Char).length -
          nextStart (findBreak ['a', 'b'] 0 (0 + 1)) 5 0 <
        (['a', 'b'] : List Char).length - 0 :=
  ⟨(chunker_forward_progress 1 5 ['a', 'b'] 0).1,
   (chunker_forward_progress 1 5 ['a', 'b'] 0).2 (by decide)⟩

/-! ## C10 -/

/-- C10: every chunk produced by `_split_text` has length at most
`chunk_size + 2` (indeed the proof shows the tighter bound `chunk_size`:
the empty separator, tried last, always resets an overshooting break point
back to the naive cut), and in the single-chunk case every chunk is bounded
by `chunk_size` itself. -/
theorem chunk_length_bound (cs ov : Nat) (text : List Char) :
    (∀ c ∈ splitText cs ov text, c.length ≤ cs + 2) ∧
    (text.length ≤ cs → ∀ c ∈ splitText cs ov text, c.length ≤ cs) :=
  ⟨fun c hc => Nat.le_trans (splitText_chunk_le cs ov text c hc) (by omega),
   fun _ => splitText_chunk_le cs ov text⟩

/-- Witness for C10 at a concrete text (`splitText 5 2 "abcdefgh"` produces
`["abcde", "defgh"]`). -/
theorem chunk_length_bound_witness :
    (['a', 'b', 'c', 'd', 'e'] : List Char).length ≤ 5 + 2 ∧
      (['a', 'b'] : List Char).length ≤ 2 :=
  ⟨(chunk_length_bound 5 2 ['a', 'b', 'c', 'd', 'e', 'f', 'g', 'h']).1
      ['a', 'b', 'c', 'd', 'e'] (by decide),
   (chunk_length_bound 2 9 ['a', 'b']).2 (by decide) ['a', 'b'] (by decide)⟩

/-! ## C1 -/

/-- Invariant of the Chroma formatting loop: with a truthy `user_id = a`,
every result it can ever return carries metadata whose `user_id` is present
and stringifies to `str(a)`. -/
theorem searchChromaLoop_isolation (a : Int) (ha : a ≠ 0) (topK : Nat) :
    ∀ (l : List RawHit) (acc : List FmtResult),
      (∀ r ∈ acc, (mget r.metadata "user_id").isSome = true ∧
        pyStr (mget r.metadata "user_id") = toString a) →
      ∀ r ∈ searchChromaLoop (some a) topK acc l,
        (mget r.metadata "user_id").isSome = true ∧
          pyStr (mget r.metadata "user_id") = toString a := by
  intro l
  induction l with
  | nil => intro acc hacc r hr; exact hacc r hr
  | cons h rest ih =>
    intro acc hacc r hr
    simp only [searchChromaLoop] at hr
    split at hr
    · exact ih acc hacc r hr
    · rename_i v heq
      split at hr
      · exact ih acc hacc r hr
      · rename_i hnot
        have hkeep : ∀ r' ∈ acc ++ [(⟨h.id, h.document, h.metadata, h.distance⟩ : FmtResult)],
            (mget r'.metadata "user_id").isSome = true ∧
              pyStr (mget r'.metadata "user_id") = toString a := by
          intro r' hr'
          rcases List.mem_append.1 hr' with h' | h'
          · exact hacc r' h'
          · rw [List.mem_singleton] at h'
            subst h'
            have ht : pyTruthyInt (some a) = true := by
              simp [pyTruthyInt, ha]
            have hv : pyValStr v = pyStrOfUserId (some a) := by
              by_contra hne
              exact hnot ⟨ht, hne⟩
            refine ⟨by rw [heq]; rfl, ?_⟩
            rw [heq]
            exact hv
        split at hr
        · exact hkeep r hr
        · exact ih _ hkeep r hr

/-- Invariant of the FAISS formatting loop: same isolation property. -/
theorem searchFaissLoop_isolation (a : Int) (ha : a ≠ 0)
    (store : List FaissEntry) (topK : Nat) :
    ∀ (l : List (Nat × Rat)) (acc : List FmtResult),
      (∀ r ∈ acc, (mget r.metadata "user_id").isSome = true ∧
        pyStr (mget r.metadata "user_id") = toString a) →
      ∀ r ∈ searchFaissLoop (some a) store topK acc l,
        (mget r.metadata "user_id").isSome = true ∧
          pyStr (mget r.metadata "user_id") = toString a := by
  intro l
  induction l with
  | nil => intro acc hacc r hr; exact hacc r hr
  | cons p rest ih =>
    intro acc hacc r hr
    rcases p with ⟨idx, d⟩
    simp only [searchFaissLoop] at hr
    split at hr
    · exact ih acc hacc r hr
    · rename_i e hidx
      split at hr
      · exact ih acc hacc r hr
      · rename_i v heq
        split at hr
        · exact ih acc hacc r hr
        · rename_i hnot
          have hkeep : ∀ r' ∈ acc ++ [(⟨e.chunk_id, e.content, e.metadata, some d⟩ : FmtResult)],
              (mget r'.metadata "user_id").isSome = true ∧
                pyStr (mget r'.metadata "user_id") = toString a := by
            intro r' hr'
            rcases List.mem_append.1 hr' with h' | h'
            · exact hacc r' h'
            · rw [List.mem_singleton] at h'
              subst h'
              have ht : pyTruthyInt (some a) = true := by
                simp [pyTruthyInt, ha]
              have hv : pyValStr v = pyStrOfUserId (some a) := by
                by_contra hne
                exact hnot ⟨ht, hne⟩
              refine ⟨by rw [heq]; rfl, ?_⟩
              rw [heq]
              exact hv
          split at hr
          · exact hkeep r hr
          · exact ih _ hkeep r hr

/-- C1: tenant isolation of search.  For every truthy tenant id `a`, every
candidate list (so in particular lists where another tenant's vectors are
nearest by raw distance) and every `top_k`, each result returned by the
tenant-scoped search — `_search_chroma` or `_search_faiss` on a store
constructed with `user_id = a` — has a `user_id` in its metadata, and that
`user_id` stringifies to `str(a)`: no entry of a different tenant and no
entry lacking a `user_id` is ever returned. -/
theorem tenant_isolation_search (a : Int) (ha : a ≠ 0) (topK : Nat)
    (raw : List RawHit) (indexExists : Bool) (store : List FaissEntry)
    (hits : List (Nat × Rat)) (r : FmtResult)
    (hr : r ∈ searchChroma (some a) topK raw ∨
          r ∈ searchFaiss (some a) indexExists store topK hits) :
    (mget r.metadata "user_id").isSome = true ∧
      pyStr (mget r.metadata "user_id") = toString a := by
  rcases hr with hr | hr
  · exact searchChromaLoop_isolation a ha topK raw [] (by simp) r hr
  · rw [searchFaiss] at hr
    split at hr
    · exact searchFaissLoop_isolation a ha store topK hits [] (by simp) r hr
    · simp at hr

/-- Witness for C1: a mixed candidate list (tenant 2 nearer by distance)
still only yields tenant 1's entry, which satisfies the isolation property. -/
theorem tenant_isolation_search_witness :
    (mget ownResult.metadata "user_id").isSome = true ∧
      pyStr (mget ownResult.metadata "user_id") = toString (1 : Int) :=
  tenant_isolation_search 1 (by decide) 5 [rawHitUser2, rawHitUser1] false [] []
    ownResult (Or.inl (by decide))

/-! ## C9 -/

/-- With a falsy `user_id`, the Chroma loop never applies the
tenant-mismatch check. -/
theorem searchChromaLoop_falsy (uid : Option Int) (hf : pyTruthyInt uid = false)
    (topK : Nat) :
    ∀ (l : List RawHit) (acc : List FmtResult),
      searchChromaLoop uid topK acc l = searchChromaKeepAllLoop topK acc l := by
  intro l
  induction l with
  | nil => intro acc; rfl
  | cons h rest ih =>
    intro acc
    rw [searchChromaLoop, searchChromaKeepAllLoop]
    rcases hm : mget h.metadata "user_id" with _ | v
    · simp only [hm]
      exact ih acc
    · simp only [hm]
      rw [if_neg (by simp [hf])]
      split
      · rfl
      · exact ih _

/-- With a falsy `user_id`, the FAISS loop never applies the
tenant-mismatch check. -/
theorem searchFaissLoop_falsy (uid : Option Int) (hf : pyTruthyInt uid = false)
    (store : List FaissEntry) (topK : Nat) :
    ∀ (l : List (Nat × Rat)) (acc : List FmtResult),
      searchFaissLoop uid store topK acc l = searchFaissKeepAllLoop store topK acc l := by
  intro l
  induction l with
  | nil => intro acc; rfl
  | cons p rest ih =>
    intro acc
    rcases p with ⟨idx, d⟩
    rw [searchFaissLoop, searchFaissKeepAllLoop]
    rcases hs : store.get? idx with _ | e
    · simp only [hs]
      exact ih acc
    · simp only [hs]
      rcases hm : mget e.metadata "user_id" with _ | v
      · simp only [hm]
        exact ih acc
      · simp only [hm]
        rw [if_neg (by simp [hf])]
        split
        · rfl
        · exact ih _

/-- C9: when the store is constructed with a falsy `user_id` (`None` or `0`),
search performs no tenant-mismatch filtering — in both backends it returns
exactly what the same loop without the tenant check returns, i.e. results
carrying any `user_id` value are passed through and only candidates whose
metadata lacks a `user_id` are dropped. -/
theorem falsy_uid_no_filter (uid : Option Int) (hf : pyTruthyInt uid = false)
    (topK : Nat) (raw : List RawHit) (indexExists : Bool)
    (store : List FaissEntry) (hits : List (Nat × Rat)) :
    searchChroma uid topK raw = searchChromaKeepAll topK raw ∧
    searchFaiss uid indexExists store topK hits =
      searchFaissKeepAll indexExists store topK hits := by
  constructor
  · exact searchChromaLoop_falsy uid hf topK raw []
  · rw [searchFaiss, searchFaissKeepAll]
    split
    · exact searchFaissLoop_falsy uid hf store topK hits []
    · rfl

/-- Witness for C9: with `user_id = None`, a tenant-2 candidate is returned
untouched in both backends. -/
theorem falsy_uid_no_filter_witness :
    searchChroma none 5 [rawHitUser2] = searchChromaKeepAll 5 [rawHitUser2] ∧
      searchFaiss none true faissStoreUser2 5 [(0, 1)] =
        searchFaissKeepAll true faissStoreUser2 5 [(0, 1)] :=
  falsy_uid_no_filter none rfl 5 [rawHitUser2] true faissStoreUser2 [(0, 1)]

/-! ## C2 -/

/-- If every result's stringified `user_id` matches, the validation loop of
`RAGPipeline.search` returns all results unchanged. -/
theorem validateResults_ok (uidStr : String) (all : List FmtResult) :
    ∀ l, (∀ r ∈ l, pyStr (mget r.metadata "user_id") = uidStr) →
      validateResults uidStr all l = .ok all := by
  intro l
  induction l with
  | nil => intro _; rfl
  | cons r rest ih =>
    intro h
    rw [validateResults]
    rw [if_neg (by simp [h r (List.mem_cons_self r rest)])]
    exact ih fun r' hr' => h r' (List.mem_cons_of_mem _ hr')

/-- If some result's stringified `user_id` mismatches, the validation loop
raises (`ValueError`). -/
theorem validateResults_error (uidStr : String) (all : List FmtResult) :
    ∀ l, (∃ r ∈ l, pyStr (mget r.metadata "user_id") ≠ uidStr) →
      isError (validateResults uidStr all l) = true := by
  intro l
  induction l with
  | nil => rintro ⟨r, hr, _⟩; exact absurd hr (List.not_mem_nil r)
  | cons r rest ih =>
    rintro ⟨r0, hr0, hne⟩
    rw [validateResults]
    by_cases hc : pyStr (mget r.metadata "user_id") ≠ uidStr
    · rw [if_pos hc]
      rfl
    · rw [if_neg hc]
      rcases List.mem_cons.1 hr0 with h | h
      · subst h
        exact absurd hne hc
      · exact ih ⟨r0, h, hne⟩

/-- C2: defense-in-depth abort on tenant mismatch.  For a pipeline with a
truthy `user_id = u` whose store reports a non-zero document count,
`RAGPipeline.search` raises `ValueError` exactly when the store's result
list contains a result whose stringified metadata `user_id` differs from
`str(u)` (including results lacking a `user_id`, whose `str(None)` never
matches); when every result matches, it returns the results unchanged. -/
theorem pipeline_abort_on_mismatch (u : Int) (hu : u ≠ 0) (n : Nat) (hn : n ≠ 0)
    (results : List FmtResult) :
    (isError (pipelineSearch (some u) n results) = true ↔
      ∃ r ∈ results, pyStr (mget r.metadata "user_id") ≠ toString u) ∧
    ((∀ r ∈ results, pyStr (mget r.metadata "user_id") = toString u) →
      pipelineSearch (some u) n results = .ok results) := by
  have hps : pipelineSearch (some u) n results =
      validateResults (toString u) results results := by
    rw [pipelineSearch]
    rw [if_neg (by simp [pyTruthyInt, hu]), if_neg hn]
    rfl
  rw [hps]
  constructor
  · constructor
    · intro herr
      by_contra hno
      push_neg at hno
      rw [validateResults_ok (toString u) results results hno] at herr
      simp [isError] at herr
    · exact validateResults_error (toString u) results results
  · exact validateResults_ok (toString u) results results

/-- Witness for C2: a leaked tenant-2 result makes the search raise, while a
matching result list is returned unchanged. -/
theorem pipeline_abort_on_mismatch_witness :
    isError (pipelineSearch (some 1) 3 [ownResult, leakedResult]) = true ∧
      pipelineSearch (some 1) 3 [ownResult] = .ok [ownResult] :=
  ⟨(pipeline_abort_on_mismatch 1 (by decide) 3 (by decide)
      [ownResult, leakedResult]).1.mpr ⟨leakedResult, by decide, by decide⟩,
   (pipeline_abort_on_mismatch 1 (by decide) 3 (by decide) [ownResult]).2
      (by decide)⟩

/-! ## C7 -/

/-- C7: whenever retrieval returns zero results, `QASystem.answer` returns
the fixed not-found answer, an empty sources list and confidence exactly
`0.0`, for every question, every `use_llm` flag and every (configured or
absent) completion capability. -/
theorem empty_results_answer (question : String) (useLlm : Bool)
    (llmClient : Option (String → Option String)) :
    qaAnswer question [] useLlm llmClient =
      { question := question
        answer := "I couldn't find relevant information in the company documents to answer this question."
        sources := []
        confidence := 0 } := rfl

/-! ## C3 -/

/-- C3 counterexample: in the FAISS backend, adding the same single chunk
(same `chunk_id`) twice does not leave the reported document count
unchanged — `_add_to_faiss` appends, so the count goes from 1 to 2. -/
theorem reingest_not_idempotent_cex :
    faissCount (addDocumentsFaiss (addDocumentsFaiss (initFaiss none) [sampleChunk])
        [sampleChunk]) ≠
      faissCount (addDocumentsFaiss (initFaiss none) [sampleChunk]) := by decide

/-- C3 (amended): re-ingestion is an append, not an upsert.  In the FAISS
backend, adding a non-empty chunk list always increases the reported
document count by the number of chunks, regardless of whether the same
chunk ids are already stored; in particular a second add of the same chunks
adds their count again instead of leaving it unchanged. -/
theorem reingest_appends (st : FaissState) (chunks : List EmbChunk)
    (h : chunks ≠ []) :
    faissCount (addDocumentsFaiss st chunks) = faissCount st + chunks.length ∧
    faissCount (addDocumentsFaiss (addDocumentsFaiss st chunks) chunks) =
      faissCount (addDocumentsFaiss st chunks) + chunks.length := by
  have hne : chunks.isEmpty = false := by
    cases chunks with
    | nil => exact absurd rfl h
    | cons c l => rfl
  constructor
  · rw [addDocumentsFaiss, if_neg (by simp [hne])]
    cases hsi : st.index <;>
      simp [addToFaiss, faissCount, hsi]
  · rw [addDocumentsFaiss, addDocumentsFaiss, if_neg (by simp [hne]),
      if_neg (by simp [hne])]
    cases hsi : st.index
    · simp [addToFaiss, faissCount, hsi]
    · simp [addToFaiss, faissCount, hsi]
      omega

/-- Witness for C3's amended theorem on a fresh store. -/
theorem reingest_appends_witness :
    faissCount (addDocumentsFaiss (initFaiss none) [sampleChunk]) =
        faissCount (initFaiss none) + [sampleChunk].length ∧
      faissCount (addDocumentsFaiss (addDocumentsFaiss (initFaiss none) [sampleChunk])
          [sampleChunk]) =
        faissCount (addDocumentsFaiss (initFaiss none) [sampleChunk]) +
          [sampleChunk].length :=
  reingest_appends (initFaiss none) [sampleChunk] (by decide)

/-! ## C5 -/

/-- C5 counterexample: constructing a `VectorStore` for tenant 1 on the
query path (Chroma backend, fresh client) brings the tenant collection
`user_1_documents` into existence as a side effect — `_init_chroma`
creates the collection when `get_collection` fails. -/
theorem init_creates_namespace_cex :
    hasCollection (initChroma [] (collectionName (some 1))) "user_1_documents" = true := by
  decide

/-- C5 (amended): `get_collection_info` itself reports count 0 for a fresh
tenant and performs no writes, and the FAISS init creates no backing files;
but in the Chroma backend the namespace is created by the store's
*constructor* (get-or-create), so a query-path read does bring the tenant
collection into existence (with count 0). -/
theorem find?_append_of_none {α : Type} (p : α → Bool) {l : List α}
    (h : l.find? p = none) (l' : List α) : (l ++ l').find? p = l'.find? p := by
  induction l with
  | nil => rfl
  | cons a t ih =>
    by_cases hpa : p a
    · rw [List.find?_cons_of_pos _ hpa] at h
      exact absurd h (by simp)
    · rw [List.find?_cons_of_neg _ hpa] at h
      rw [List.cons_append, List.find?_cons_of_neg _ hpa]
      exact ih h

theorem namespace_read_behavior (client : ChromaClient) (name : String)
    (h : hasCollection client name = false) :
    hasCollection (initChroma client name) name = true ∧
    chromaCount (initChroma client name) name = 0 ∧
    (initFaiss none).disk = none ∧ faissCount (initFaiss none) = 0 := by
  have hfind : client.find? (fun p => p.1 == name) = none := by
    rw [List.find?_eq_none]
    intro x hx
    intro hbeq
    rw [hasCollection, List.any_eq_false] at h
    exact h x hx hbeq
  have hinit : initChroma client name = client ++ [(name, 0)] := by
    rw [initChroma, if_neg (by simp [h])]
  refine ⟨?_, ?_, rfl, rfl⟩
  · rw [hinit, hasCollection, List.any_append]
    rw [hasCollection] at h
    simp [h]
  · rw [hinit, chromaCount, find?_append_of_none _ hfind]
    simp [List.find?]

/-- Witness for C5's amended theorem on a fresh client. -/
theorem namespace_read_behavior_witness :
    hasCollection (initChroma [] "user_1_documents") "user_1_documents" = true ∧
      chromaCount (initChroma [] "user_1_documents") "user_1_documents" = 0 ∧
      (initFaiss none).disk = none ∧ faissCount (initFaiss none) = 0 :=
  namespace_read_behavior [] "user_1_documents" rfl

/-! ## C6 -/

/-- C6 counterexample: in the Chroma backend, deleting the same namespace
twice in a row does not succeed twice — the second `delete_collection`
raises inside the library and the handler returns `False`. -/
theorem double_delete_fails_cex :
    (deleteChroma (deleteChroma (initChroma [] "user_1_documents")
        "user_1_documents").1 "user_1_documents").2 = false := by decide

/-- C6 (amended): namespace deletion is idempotent and total only in the
FAISS backend (always reports success and removes the backing files, also
when nothing exists); in the Chroma backend `delete_collection` reports
success exactly when the collection currently exists, so a second delete in
a row returns `False`. -/
theorem delete_namespace_behavior (st : FaissState) (client : ChromaClient)
    (name : String) :
    (deleteFaiss st).2 = true ∧
    (deleteFaiss (deleteFaiss st).1).2 = true ∧
    (deleteFaiss st).1.disk = none ∧
    (deleteChroma client name).2 = hasCollection client name ∧
    (deleteChroma (deleteChroma client name).1 name).2 = false := by
  refine ⟨rfl, rfl, rfl, ?_, ?_⟩
  · rw [deleteChroma]
    split
    · rename_i hh
      exact hh.symm
    · rename_i hh
      simp only []
      exact (Bool.not_eq_true _).mp hh |>.symm
  · by_cases hc : hasCollection client name = true
    · have h1 : (deleteChroma client name).1 = client.filter (fun p => p.1 != name) := by
        rw [deleteChroma, if_pos hc]
      have hgone : hasCollection (client.filter (fun p => p.1 != name)) name = false := by
        rw [hasCollection, List.any_eq_false]
        intro x hx
        rcases List.mem_filter.1 hx with ⟨_, hne⟩
        simpa using hne
      rw [h1, deleteChroma, if_neg (by simp [hgone])]
    · have h1 : (deleteChroma client name).1 = client := by
        rw [deleteChroma, if_neg hc]
      rw [h1, deleteChroma, if_neg hc]
